import Mathlib

/-!
Shallow embedding of the interval-algebra core of the hbp_webapp repository:
`DateRange` / `DateRangeGroup` (src/backend/well_record/date_range.py),
`WellRecord` (src/backend/well_record/well_record.py) and
`WellGroup.find_gaps` (src/backend/data_analyzer/well_group.py).

Modelling conventions:
* A Python `datetime.date` is represented by its proleptic Gregorian
  ordinal (`date.toordinal()`), an `Int`; `timedelta(days=k)` arithmetic,
  comparisons and day differences are exactly ordinal arithmetic.
  `dateOrd` below converts a calendar `(year, month, day)` to the ordinal.
* Python methods that mutate `self` are modelled as functions returning
  the new value; methods that can raise return `Except`.
* Python `dict` fields are modelled as insertion-ordered association
  lists with unique keys (lookup scans from the front).
-/

/-- A period of time, represented by start and end dates (inclusive).
Mirrors class `DateRange`; the constructor check `start_date > end_date`
(which raises `ValueError`) is modelled by `DateRange.mk?` below, while the
bare structure carries the two fields. -/
structure DateRange where
  start_date : Int
  end_date : Int
  deriving DecidableEq, Repr

/-- The invariant `__init__` enforces: `start_date <= end_date`. Every
`DateRange` object a running Python program can hold satisfies it. -/
def DateRange.Valid (r : DateRange) : Prop :=
  r.start_date ≤ r.end_date

instance (r : DateRange) : Decidable r.Valid :=
  inferInstanceAs (Decidable (r.start_date ≤ r.end_date))

/-- `DateRange.__init__`: raises `ValueError` when `start_date > end_date`,
otherwise produces the range. -/
def DateRange.mk? (s e : Int) : Except String DateRange :=
  if s > e then .error "Start date must be earlier than end date."
  else .ok ⟨s, e⟩

/-- `DateRange.duration_in_days`: `(end_date - start_date).days + 1`. -/
def DateRange.duration_in_days (r : DateRange) : Int :=
  r.end_date - r.start_date + 1

/-- `DateRange.is_contiguous_with(other, days_tolerance)`: true when either
range's end falls within the other range expanded by the tolerance. -/
def DateRange.is_contiguous_with (r other : DateRange) (days_tolerance : Int) : Bool :=
  (r.start_date - days_tolerance ≤ other.end_date
      ∧ other.end_date ≤ r.end_date + days_tolerance)
    ∨ (other.start_date - days_tolerance ≤ r.end_date
      ∧ r.end_date ≤ other.end_date + days_tolerance)

/-- `DateRange.encompasses(other, days_tolerance)`: this range, expanded by
the tolerance on both ends, fully contains `other`. -/
def DateRange.encompasses (r other : DateRange) (days_tolerance : Int) : Bool :=
  r.start_date - days_tolerance ≤ other.start_date
    ∧ r.end_date + days_tolerance ≥ other.end_date

/-- `DateRange.merge_with(other, days_tolerance)`: one merged range when
contiguous, else the two inputs in that fixed order. The `DateRange`
constructor call inside cannot raise: `min` of the starts is at most `max`
of the ends whenever the inputs are valid (`DateRange.merge_with_valid`). -/
def DateRange.merge_with (r other : DateRange) (days_tolerance : Int) : List DateRange :=
  if ¬ r.is_contiguous_with other days_tolerance then [r, other]
  else [⟨min r.start_date other.start_date, max r.end_date other.end_date⟩]

/-- `DateRange.subtract(other)`: carve `other` out of `r` (tolerance 0
throughout). The `DateRange` constructor calls can raise `ValueError`
(when a constructed piece would be empty), which propagates. -/
def DateRange.subtract (r other : DateRange) : Except String (List DateRange) :=
  if ¬ r.is_contiguous_with other 0 then
    .ok [r]
  else if other.encompasses r 0 then
    .ok []
  else if r.encompasses other 0 then do
    let dr1 ← DateRange.mk? r.start_date (other.start_date - 1)
    let dr2 ← DateRange.mk? (other.end_date + 1) r.end_date
    .ok [dr1, dr2]
  else if other.start_date < r.start_date then do
    let dr ← DateRange.mk? (other.end_date + 1) r.end_date
    .ok [dr]
  else do
    let dr ← DateRange.mk? r.start_date (other.start_date - 1)
    .ok [dr]

/-- `DateRange.find_overlap(other)`: the exact intersecting sub-range, or
`none` when the ranges are not contiguous at tolerance 0. The constructor
calls cannot raise on valid inputs (contiguity forces the bounds to be
ordered). -/
def DateRange.find_overlap (r other : DateRange) : Option DateRange :=
  if ¬ r.is_contiguous_with other 0 then none
  else if other.encompasses r 0 then some r
  else if r.encompasses other 0 then some other
  else if other.start_date < r.start_date then some ⟨r.start_date, other.end_date⟩
  else some ⟨other.start_date, r.end_date⟩

/-- On valid inputs `merge_with` only builds valid ranges, so the Python
constructor check inside it never fires. -/
theorem DateRange.merge_with_valid (r other : DateRange) (t : Int)
    (hr : r.Valid) (ho : other.Valid) :
    ∀ x ∈ r.merge_with other t, x.Valid := by
  intro x hx
  unfold DateRange.merge_with at hx
  split at hx
  · simp only [List.mem_cons, List.not_mem_nil, or_false] at hx
    rcases hx with h | h
    · subst h; exact hr
    · subst h; exact ho
  · simp only [List.mem_singleton] at hx
    subst hx
    simp only [DateRange.Valid]
    exact le_trans (min_le_left _ _) (le_trans hr (le_max_left _ _))

deriving instance DecidableEq for Except

/-- A collection of `DateRange` objects (class `DateRangeGroup`); the
stored list `date_ranges`. -/
structure DateRangeGroup where
  date_ranges : List DateRange
  deriving DecidableEq, Repr

/-- Stable insertion of one element into a list by a boolean `≤` test:
the inserted element goes before the first element it compares `≤` to. -/
def insertLe (le : DateRange → DateRange → Bool) (a : DateRange) :
    List DateRange → List DateRange
  | [] => [a]
  | b :: l => if le a b then a :: b :: l else b :: insertLe le a l

/-- Stable insertion sort (ascending) by a boolean `≤` test; models one
Python `list.sort(key=...)` call, which is a stable ascending sort. -/
def sortLe (le : DateRange → DateRange → Bool) : List DateRange → List DateRange
  | [] => []
  | a :: l => insertLe le a (sortLe le l)

/-- `DateRangeGroup.sort`: `self.date_ranges.sort(key=start_date)` followed
by `self.date_ranges.sort(key=end_date)` — two stable sorts, so the end
date is the primary key and the start date the secondary key. -/
def DateRangeGroup.sortRanges (l : List DateRange) : List DateRange :=
  sortLe (fun a b => a.end_date ≤ b.end_date)
    (sortLe (fun a b => a.start_date ≤ b.start_date) l)

/-- One pass of the `for i in range(0, len(drs), 2)` loop inside
`merge_all`: elements are paired `(0,1), (2,3), ...`; with an odd count the
last element is paired with itself (`j = min(i + 1, len(drs) - 1)`). -/
def DateRangeGroup.mergePass (t : Int) : List DateRange → List DateRange
  | [] => []
  | [a] => a.merge_with a t
  | a :: b :: rest => a.merge_with b t ++ DateRangeGroup.mergePass t rest

/-- `DateRangeGroup.merge_all(days_tolerance=0)`. The Python `while` loop
compares `len(drs)` with `len(new_drs)`; the body ends with
`drs = new_drs`, so after the first iteration both names are bound to the
same list, the condition is false and the loop exits. Hence: zero passes
when the sorted list is empty (`len(drs) == len([])` at entry), and exactly
one `mergePass` otherwise. -/
def DateRangeGroup.merge_all (t : Int) (g : DateRangeGroup) : DateRangeGroup :=
  let drs := DateRangeGroup.sortRanges g.date_ranges
  if drs.length = 0 then ⟨[]⟩ else ⟨DateRangeGroup.mergePass t drs⟩

/-- `DateRangeGroup.find_all_overlaps(other)`: empty if either group is
empty; otherwise collect `find_overlap` over all pairs (outer loop over
`other`, inner over `self`) and `merge_all()` the collected overlaps with
the default tolerance 0. -/
def DateRangeGroup.find_all_overlaps (g other : DateRangeGroup) : DateRangeGroup :=
  if g.date_ranges.length = 0 ∨ other.date_ranges.length = 0 then ⟨[]⟩
  else
    DateRangeGroup.merge_all 0
      ⟨other.date_ranges.flatMap fun b =>
        g.date_ranges.filterMap fun a => a.find_overlap b⟩

/-- `DateRangeGroup.get_shortest_and_longest_durations`: fold over the
members with both accumulators initialised to 0, taking `min` for the
shortest and `max` for the longest. -/
def DateRangeGroup.get_shortest_and_longest_durations (g : DateRangeGroup) : Int × Int :=
  g.date_ranges.foldl
    (fun acc dr => (min acc.1 dr.duration_in_days, max acc.2 dr.duration_in_days))
    (0, 0)

/-- C1 failing input: three pairwise-chained one-day-overlap ranges (day
ordinals 1–2, 2–3, 3–4). `merge_all(0)` performs a single merge pass, so it
merges the first pair into 1–3 but leaves 3–4 separate, and the loop exits;
the two stored members overlap (both contain day 3), violating the
post-`merge_all` maximal-reduction invariant at tolerance 0. -/
theorem merge_all_leaves_overlapping_members :
    (DateRangeGroup.merge_all 0 ⟨[⟨1, 2⟩, ⟨2, 3⟩, ⟨3, 4⟩]⟩).date_ranges
        = [⟨1, 3⟩, ⟨3, 4⟩]
      ∧ DateRange.is_contiguous_with ⟨1, 3⟩ ⟨3, 4⟩ 0 = true := by
  decide

/-- C8 failing input: on the same three chained ranges, a second
`merge_all(0)` merges 1–3 with 3–4 into 1–4, so applying `merge_all` twice
does not leave the same stored list as applying it once. -/
theorem merge_all_not_idempotent :
    DateRangeGroup.merge_all 0 (DateRangeGroup.merge_all 0 ⟨[⟨1, 2⟩, ⟨2, 3⟩, ⟨3, 4⟩]⟩)
      ≠ DateRangeGroup.merge_all 0 ⟨[⟨1, 2⟩, ⟨2, 3⟩, ⟨3, 4⟩]⟩ := by
  decide

/-- C3 failing input: subtracting `[1, 5]` from `[1, 10]` (both valid,
start dates aligned). The code reaches the middle-cut branch (`self`
encompasses `other` at tolerance 0) and builds `DateRange(1, 0)`, whose
constructor raises `ValueError` instead of returning the single range
`[6, 10]` required by the point-set specification. -/
theorem subtract_raises_on_aligned_start :
    DateRange.subtract ⟨1, 10⟩ ⟨1, 5⟩
      = .error "Start date must be earlier than end date." := by
  decide

/-- C7 failing input: a one-member group whose only range lasts 10 days.
The shortest accumulator starts at 0 and is only ever lowered by `min`, so
the method returns `(0, 10)` instead of `(10, 10)`. -/
theorem shortest_duration_stuck_at_zero :
    DateRangeGroup.get_shortest_and_longest_durations ⟨[⟨1, 10⟩]⟩ = (0, 10) := by
  decide

/-- Python leap-year rule (`calendar.isleap`), as used by `datetime.date`. -/
def isLeapYear (y : Nat) : Bool :=
  y % 4 = 0 ∧ (y % 100 ≠ 0 ∨ y % 400 = 0)

/-- Number of days in month `m` of year `y` for the proleptic Gregorian
calendar (what `datetime.date` validates the day field against). -/
def daysInMonth (y m : Nat) : Nat :=
  if m = 2 then (if isLeapYear y then 29 else 28)
  else if m = 4 ∨ m = 6 ∨ m = 9 ∨ m = 11 then 30
  else 31

/-- Days in year `y` strictly before month `m` (for `1 ≤ m ≤ 12`). -/
def daysBeforeMonth (y m : Nat) : Nat :=
  (match m with
    | 1 => 0 | 2 => 31 | 3 => 59 | 4 => 90 | 5 => 120 | 6 => 151
    | 7 => 181 | 8 => 212 | 9 => 243 | 10 => 273 | 11 => 304 | _ => 334)
    + (if 2 < m ∧ isLeapYear y then 1 else 0)

/-- `datetime.date(y, m, d).toordinal()`: day number in the proleptic
Gregorian calendar with `0001-01-01 = 1`. This is the bridge between the
calendar form of a Python date and the `Int` representation used here. -/
def dateOrd (y m d : Nat) : Int :=
  ((365 * (y - 1) + (y - 1) / 4 - (y - 1) / 100 + (y - 1) / 400)
    + daysBeforeMonth y m + d : Nat)

/-- Key lookup in an insertion-ordered association list (Python
`dict.get` / `in` on a `dict[str, DateRangeGroup]`). -/
def lookupAssoc : List (String × DateRangeGroup) → String → Option DateRangeGroup
  | [], _ => none
  | (k, v) :: m, c => if k = c then some v else lookupAssoc m c

/-- Replace the value stored under an existing key; a missing key leaves
the list unchanged (mutating a group fetched with a default does not store
the default back into the dict). -/
def updateAssoc (m : List (String × DateRangeGroup)) (c : String) (v : DateRangeGroup) :
    List (String × DateRangeGroup) :=
  m.map fun p => if p.1 = c then (c, v) else p

/-- Python `dict` assignment `m[c] = v`: overwrite an existing key in
place, else append a new entry (dicts preserve insertion order). -/
def storeAssoc (m : List (String × DateRangeGroup)) (c : String) (v : DateRangeGroup) :
    List (String × DateRangeGroup) :=
  if (lookupAssoc m c).isSome then updateAssoc m c v else m ++ [(c, v)]

/-- Production records for a given well (class `WellRecord`); `date_ranges`
is the category-name → `DateRangeGroup` dict. -/
structure WellRecord where
  api_num : String
  well_name : Option String
  first_date : Option Int
  last_date : Option Int
  record_access_date : Option Int
  date_ranges : List (String × DateRangeGroup)
  deriving DecidableEq, Repr

/-- Membership test `category in wr.registered_categories()`: a key test on
the `date_ranges` dict. -/
def WellRecord.registered (wr : WellRecord) (category : String) : Bool :=
  (lookupAssoc wr.date_ranges category).isSome

/-- `WellRecord.date_ranges_by_category`: `self.date_ranges.get(category,
DateRangeGroup())` — the stored group when the key exists, else a fresh
empty group. -/
def WellRecord.date_ranges_by_category (wr : WellRecord) (category : String) : DateRangeGroup :=
  (lookupAssoc wr.date_ranges category).getD ⟨[]⟩

/-- `WellRecord.date_ranges_by_category` as a call with its post-state:
`dict.get(key, default)` reads without writing, so the record after the
call is returned unchanged alongside the result. -/
def WellRecord.date_ranges_by_category_call (wr : WellRecord) (category : String) :
    DateRangeGroup × WellRecord :=
  (wr.date_ranges_by_category category, wr)

/-- `WellRecord.register_empty_category`: `dict.setdefault(category,
DateRangeGroup())` — inserts an empty group only when the key is absent. -/
def WellRecord.register_empty_category (wr : WellRecord) (category : String) : WellRecord :=
  if (lookupAssoc wr.date_ranges category).isSome then wr
  else { wr with date_ranges := wr.date_ranges ++ [(category, ⟨[]⟩)] }

/-- The two exceptions `WellGroup.find_gaps` can raise: the `KeyError` for
a category missing on some member, and the `ValueError` for a record with
exactly one of `first_date` / `last_date` set. -/
inductive GapsErr where
  | missingCategory (category : String)
  | inconsistentRecord
  deriving DecidableEq, Repr

/-- A group of well records plus the per-category cache `researched_gaps`
(class `WellGroup`). -/
structure WellGroup where
  well_records : List WellRecord
  researched_gaps : List (String × DateRangeGroup)
  deriving DecidableEq, Repr

/-- `WellGroup.find_first_date`: the loop keeps the running value when it
is already set, replacing it only by a strictly earlier non-`None` date;
while it is `None` it takes whatever the next record holds. -/
def WellGroup.find_first_date (g : WellGroup) : Option Int :=
  g.well_records.foldl
    (fun acc wr =>
      match acc with
      | none => wr.first_date
      | some f =>
        match wr.first_date with
        | some x => if x < f then some x else some f
        | none => some f)
    none

/-- `WellGroup.find_last_date`: symmetric to `find_first_date` with a
strictly-later comparison. -/
def WellGroup.find_last_date (g : WellGroup) : Option Int :=
  g.well_records.foldl
    (fun acc wr =>
      match acc with
      | none => wr.last_date
      | some l =>
        match wr.last_date with
        | some x => if x > l then some x else some l
        | none => some l)
    none

/-- Prepend a processed record onto the record list carried by a loop
outcome (both on normal return and on a propagating exception). -/
def consState (wr : WellRecord) :
    Except (GapsErr × List WellRecord) (DateRangeGroup × List WellRecord) →
      Except (GapsErr × List WellRecord) (DateRangeGroup × List WellRecord)
  | .ok (res, rs) => .ok (res, wr :: rs)
  | .error (e, rs) => .error (e, wr :: rs)

/-- The per-record loop of `WellGroup.find_gaps`, with the well-record list
threaded through because the loop mutates records: the Python code builds
`normalized_dr_group = DateRangeGroup(original_dr_group.date_ranges)`,
whose constructor stores the passed list object itself, so the padding
appended via `add_date_range` also lands in the record's own stored group.
The `i == 0 or not gaps_meaningfully_initialized` test is equivalent to
`not gaps_meaningfully_initialized` (the flag is initially false), so only
the flag is threaded. A record with both dates `None` is skipped
(`continue`); one with exactly one date set raises `ValueError`, leaving
already-processed records mutated. Once initialised, an empty running
result stops the loop (`break`) before later records are touched. The
`overallFirst`/`overallLast` matches cannot see `none` when the record has
a date set (the group minimum/maximum is then set too); the `none` arms
are unreachable defaults. Errors carry the record list as it stands when
the exception propagates. -/
def WellGroup.gapsLoop (category : String) (overallFirst overallLast : Option Int) :
    List WellRecord → Bool → DateRangeGroup →
      Except (GapsErr × List WellRecord) (DateRangeGroup × List WellRecord)
  | [], _, gaps => .ok (gaps, [])
  | wr :: rest, init, gaps =>
    let original := wr.date_ranges_by_category category
    match wr.first_date, wr.last_date with
    | none, none =>
      consState wr (WellGroup.gapsLoop category overallFirst overallLast rest init gaps)
    | none, some _ => .error (.inconsistentRecord, wr :: rest)
    | some _, none => .error (.inconsistentRecord, wr :: rest)
    | some f, some l =>
      let padFront : List DateRange :=
        match overallFirst with
        | some o => if o < f then [⟨o, f - 1⟩] else []
        | none => []
      let padBack : List DateRange :=
        match overallLast with
        | some o => if o > l then [⟨l + 1, o⟩] else []
        | none => []
      let normalized : DateRangeGroup := ⟨original.date_ranges ++ padFront ++ padBack⟩
      let wr' : WellRecord :=
        { wr with date_ranges := updateAssoc wr.date_ranges category normalized }
      if ¬ init then
        consState wr' (WellGroup.gapsLoop category overallFirst overallLast rest true normalized)
      else if gaps.date_ranges.length = 0 then
        .ok (gaps, wr' :: rest)
      else
        consState wr'
          (WellGroup.gapsLoop category overallFirst overallLast rest init
            (gaps.find_all_overlaps normalized))

/-- `WellGroup.find_gaps(category)`: compute the overall span, require the
category on every record (else `KeyError`, raised before anything is
touched), run the normalization/intersection loop, then cache the result
under `category` and return it. On success the returned `WellGroup`
carries the records as mutated by the loop and the updated cache; on
failure it carries the records as they stood when the exception
propagated, with the cache untouched. -/
def WellGroup.find_gaps (g : WellGroup) (category : String) :
    Except (GapsErr × WellGroup) (DateRangeGroup × WellGroup) :=
  let overallFirst := g.find_first_date
  let overallLast := g.find_last_date
  if g.well_records.all (fun wr => wr.registered category) then
    match WellGroup.gapsLoop category overallFirst overallLast g.well_records false ⟨[]⟩ with
    | .ok (gaps, rs) => .ok (gaps, ⟨rs, storeAssoc g.researched_gaps category gaps⟩)
    | .error (e, rs) => .error (e, ⟨rs, g.researched_gaps⟩)
  else
    .error (.missingCategory category, g)

/-- Well A of the spec's Scenario B: span 2001-01-01..2020-05-31, one
recorded gap 2002-01-01..2003-12-31. -/
def wellA : WellRecord :=
  { api_num := "05-123-00001"
    well_name := none
    first_date := some (dateOrd 2001 1 1)
    last_date := some (dateOrd 2020 5 31)
    record_access_date := none
    date_ranges := [("NO_PROD", ⟨[⟨dateOrd 2002 1 1, dateOrd 2003 12 31⟩]⟩)] }

/-- Well B of the spec's Scenario B: span 2002-01-01..2023-05-01, one
recorded gap 2002-05-01..2004-11-30. -/
def wellB : WellRecord :=
  { api_num := "05-123-00002"
    well_name := none
    first_date := some (dateOrd 2002 1 1)
    last_date := some (dateOrd 2023 5 1)
    record_access_date := none
    date_ranges := [("NO_PROD", ⟨[⟨dateOrd 2002 5 1, dateOrd 2004 11 30⟩]⟩)] }

/-- The two-well group of Scenario B, with an empty cache. -/
def scenarioB : WellGroup :=
  ⟨[wellA, wellB], []⟩

/-- C2: on Scenario B, `find_gaps("NO_PROD")` succeeds and returns exactly
one shared gap, 2002-05-01..2003-12-31. Well A's gap set is normalized
with the synthetic tail pad 2020-06-01..2023-05-01 and well B's with the
head pad 2001-01-01..2001-12-31 before intersecting. -/
theorem find_gaps_scenario_b :
    (match scenarioB.find_gaps "NO_PROD" with
      | .ok (gaps, _) => gaps.date_ranges
      | .error _ => []) = [⟨dateOrd 2002 5 1, dateOrd 2003 12 31⟩] := by
  decide

/-- A record whose span (day 10..20) is strictly inside the group span, so
`find_gaps` must pad its gap set on both sides. -/
def wrPadded : WellRecord :=
  { api_num := "A", well_name := none, first_date := some 10, last_date := some 20
    record_access_date := none, date_ranges := [("c", ⟨[⟨12, 13⟩]⟩)] }

/-- A record spanning the whole group span (day 1..30). -/
def wrWide : WellRecord :=
  { api_num := "B", well_name := none, first_date := some 1, last_date := some 30
    record_access_date := none, date_ranges := [("c", ⟨[⟨5, 6⟩]⟩)] }

/-- Group whose first record needs normalization padding. -/
def paddedGroup : WellGroup :=
  ⟨[wrPadded, wrWide], []⟩

/-- C4 failing input: `find_gaps` on `paddedGroup` succeeds, but the first
record's stored group under `"c"` has grown from one range to three — the
two synthetic padding ranges were appended to the record's own list
through the aliased `DateRangeGroup` constructor — while the claim
requires the stored collection to be identical before and after. -/
theorem find_gaps_mutates_padded_record :
    (paddedGroup.find_gaps "c").map
        (fun r => r.2.well_records.map fun wr =>
          (wr.date_ranges_by_category "c").date_ranges)
      = .ok [[⟨12, 13⟩, ⟨1, 9⟩, ⟨21, 30⟩], [⟨5, 6⟩]]
    ∧ paddedGroup.well_records.map
        (fun wr => (wr.date_ranges_by_category "c").date_ranges)
      = [[⟨12, 13⟩], [⟨5, 6⟩]] := by
  decide

/-- A record with a gap inside the group span. -/
def wrGapped : WellRecord :=
  { api_num := "G", well_name := none, first_date := some 1, last_date := some 30
    record_access_date := none, date_ranges := [("c", ⟨[⟨10, 20⟩]⟩)] }

/-- A record with the category registered explicitly empty, but whose span
starts later than the group's (day 15 vs day 1). -/
def wrEmptyShort : WellRecord :=
  { api_num := "E", well_name := none, first_date := some 15, last_date := some 30
    record_access_date := none, date_ranges := [("c", ⟨[]⟩)] }

/-- Group combining a non-empty gap set with an explicitly-empty one on a
shorter observation window. -/
def emptyShortGroup : WellGroup :=
  ⟨[wrGapped, wrEmptyShort], []⟩

/-- C5 counterexample: `wrEmptyShort` has the category registered with an
empty gap set while `wrGapped` has a non-empty one, yet `find_gaps`
returns a non-empty result (days 10..14): normalization pads the empty set
with the synthetic head gap 1..14, which intersects the other well's gap.
The claim, as stated for every such group, is false. -/
theorem find_gaps_empty_category_not_empty_result :
    lookupAssoc wrEmptyShort.date_ranges "c" = some ⟨[]⟩
      ∧ (match emptyShortGroup.find_gaps "c" with
          | .ok (gaps, _) => gaps.date_ranges
          | .error _ => []) = [⟨10, 14⟩] := by
  decide

theorem consState_eq_ok {w : WellRecord}
    {r : Except (GapsErr × List WellRecord) (DateRangeGroup × List WellRecord)}
    {res : DateRangeGroup} {rs : List WellRecord}
    (h : consState w r = .ok (res, rs)) :
    ∃ rs', r = .ok (res, rs') ∧ rs = w :: rs' := by
  cases r with
  | ok p =>
    obtain ⟨a, b⟩ := p
    simp only [consState, Except.ok.injEq, Prod.mk.injEq] at h
    exact ⟨b, by rw [h.1], h.2.symm⟩
  | error p =>
    obtain ⟨e, b⟩ := p
    simp [consState] at h

theorem consState_eq_error {w : WellRecord}
    {r : Except (GapsErr × List WellRecord) (DateRangeGroup × List WellRecord)}
    {e : GapsErr} {rs : List WellRecord}
    (h : consState w r = .error (e, rs)) :
    ∃ rs', r = .error (e, rs') ∧ rs = w :: rs' := by
  cases r with
  | ok p =>
    obtain ⟨a, b⟩ := p
    simp [consState] at h
  | error p =>
    obtain ⟨e', b⟩ := p
    simp only [consState, Except.error.injEq, Prod.mk.injEq] at h
    exact ⟨b, by rw [h.1], h.2.symm⟩

/-- Intersecting with an empty group yields the empty group (the early
return at the top of `find_all_overlaps`). -/
theorem find_all_overlaps_empty_right (g : DateRangeGroup) :
    g.find_all_overlaps ⟨[]⟩ = ⟨[]⟩ := by
  simp [DateRangeGroup.find_all_overlaps]

/-- The only exception the per-record loop itself raises is the
`ValueError` for an inconsistent record; the `KeyError` for a missing
category is raised before the loop starts. -/
theorem gapsLoop_error_kind (cat : String) (ovf ovl : Option Int) :
    ∀ (records : List WellRecord) (init : Bool) (gaps : DateRangeGroup)
      (e : GapsErr) (rs : List WellRecord),
      WellGroup.gapsLoop cat ovf ovl records init gaps = .error (e, rs) →
      e = .inconsistentRecord := by
  intro records
  induction records with
  | nil =>
    intro init gaps e rs h
    simp [WellGroup.gapsLoop] at h
  | cons wr rest ih =>
    intro init gaps e rs h
    rcases hf : wr.first_date with _ | f <;> rcases hl : wr.last_date with _ | l <;>
      simp only [WellGroup.gapsLoop, hf, hl] at h
    · obtain ⟨rs', hrec, -⟩ := consState_eq_error h
      exact ih init gaps e rs' hrec
    · exact (Prod.mk.injEq .. ▸ (Except.error.injEq .. ▸ h)).1.symm
    · exact (Prod.mk.injEq .. ▸ (Except.error.injEq .. ▸ h)).1.symm
    · split at h
      · obtain ⟨rs', hrec, -⟩ := consState_eq_error h
        exact ih _ _ e rs' hrec
      · split at h
        · simp at h
        · obtain ⟨rs', hrec, -⟩ := consState_eq_error h
          exact ih _ _ e rs' hrec

/-- C6: `find_gaps(category)` fails with the missing-category error
(`KeyError`) exactly when at least one member record does not have the
category registered, and on that failure the `researched_gaps` cache of
the group carried by the exception is unchanged: the registration check
runs before any record is touched or any cache entry is written. -/
theorem find_gaps_missing_category_iff (g : WellGroup) (cat : String) :
    (∃ g', g.find_gaps cat = .error (.missingCategory cat, g')
        ∧ g'.researched_gaps = g.researched_gaps)
      ↔ ∃ wr ∈ g.well_records, wr.registered cat = false := by
  constructor
  · rintro ⟨g', hg, -⟩
    by_contra hno
    push_neg at hno
    have hall : g.well_records.all (fun wr => wr.registered cat) = true := by
      rw [List.all_eq_true]
      intro x hx
      have hx' := hno x hx
      revert hx'
      cases x.registered cat <;> simp
    simp only [WellGroup.find_gaps] at hg
    split at hg
    case isTrue =>
      rcases hres : WellGroup.gapsLoop cat g.find_first_date g.find_last_date
          g.well_records false ⟨[]⟩ with p | p
      · obtain ⟨e, rs⟩ := p
        rw [hres] at hg
        simp only [Except.error.injEq, Prod.mk.injEq] at hg
        have hkind := gapsLoop_error_kind cat g.find_first_date g.find_last_date
          g.well_records false ⟨[]⟩ e rs hres
        rw [hkind] at hg
        exact GapsErr.noConfusion hg.1
      · obtain ⟨res, rs⟩ := p
        rw [hres] at hg
        exact Except.noConfusion hg
    case isFalse hfalse => exact hfalse hall
  · rintro ⟨wr, hmem, hreg⟩
    have hall : g.well_records.all (fun w => w.registered cat) = false := by
      rw [List.all_eq_false]
      exact ⟨wr, hmem, by simp [hreg]⟩
    refine ⟨g, ?_, rfl⟩
    simp [WellGroup.find_gaps, hall]

/-- Appending a fresh key at the end of an association list makes it
visible to lookup when the key was previously absent. -/
theorem lookupAssoc_append_self (m : List (String × DateRangeGroup)) (c : String)
    (v : DateRangeGroup) (h : lookupAssoc m c = none) :
    lookupAssoc (m ++ [(c, v)]) c = some v := by
  induction m with
  | nil => simp [lookupAssoc]
  | cons p m ih =>
    obtain ⟨k, w⟩ := p
    by_cases hk : k = c
    · simp [lookupAssoc, hk] at h
    · simp only [lookupAssoc, List.cons_append, if_neg hk] at h ⊢
      exact ih h

/-- C10: for a category that has not been registered,
`date_ranges_by_category` returns a fresh empty `DateRangeGroup` and
leaves the record unchanged (no registration side effect) — exactly the
result the accessor gives for an explicitly registered empty category, as
the second conjunct shows via `register_empty_category`. -/
theorem date_ranges_by_category_unregistered (wr : WellRecord) (category : String)
    (h : lookupAssoc wr.date_ranges category = none) :
    wr.date_ranges_by_category_call category = (⟨[]⟩, wr)
      ∧ (wr.register_empty_category category).date_ranges_by_category category = ⟨[]⟩ := by
  constructor
  · simp [WellRecord.date_ranges_by_category_call, WellRecord.date_ranges_by_category, h]
  · simp only [WellRecord.register_empty_category, h, Option.isSome_none, Bool.false_eq_true,
      if_false]
    simp [WellRecord.date_ranges_by_category, lookupAssoc_append_self _ _ _ h]

/-- A record with no categories registered at all. -/
def unregisteredWell : WellRecord :=
  { api_num := "X", well_name := none, first_date := none, last_date := none
    record_access_date := none, date_ranges := [] }

/-- Witness for C10 at a concrete record and category. -/
theorem date_ranges_by_category_unregistered_witness :
    unregisteredWell.date_ranges_by_category_call "c" = (⟨[]⟩, unregisteredWell)
      ∧ (unregisteredWell.register_empty_category "c").date_ranges_by_category "c" = ⟨[]⟩ :=
  date_ranges_by_category_unregistered unregisteredWell "c" rfl

/-- A group whose stored list has length zero stores the empty list. -/
theorem group_eq_empty_of_length {gaps : DateRangeGroup}
    (h : gaps.date_ranges.length = 0) : gaps = ⟨[]⟩ := by
  cases gaps with
  | mk l =>
    rw [show (DateRangeGroup.mk l).date_ranges = l from rfl, List.length_eq_zero] at h
    rw [h]

/-- If the `find_first_date` fold ends on `None`, the accumulator it
started from was `None` and every record it saw has `first_date = None`. -/
theorem foldl_first_none :
    ∀ (l : List WellRecord) (acc : Option Int),
      l.foldl
        (fun acc wr =>
          match acc with
          | none => wr.first_date
          | some f =>
            match wr.first_date with
            | some x => if x < f then some x else some f
            | none => some f) acc = none →
      acc = none ∧ ∀ r ∈ l, r.first_date = none := by
  intro l
  induction l with
  | nil =>
    intro acc h
    exact ⟨h, by simp⟩
  | cons r l ih =>
    intro acc h
    rw [List.foldl_cons] at h
    obtain ⟨hstep, hall⟩ := ih _ h
    have hacc : acc = none := by
      cases acc with
      | none => rfl
      | some f =>
        exfalso
        rcases hr : r.first_date with _ | x
        · simp [hr] at hstep
        · rw [hr] at hstep
          simp only at hstep
          split at hstep <;> exact Option.noConfusion hstep
    subst hacc
    have hr : r.first_date = none := by simpa using hstep
    refine ⟨rfl, ?_⟩
    intro s hs
    rcases List.mem_cons.mp hs with h1 | h1
    · rw [h1]; exact hr
    · exact hall s h1

/-- If the `find_last_date` fold ends on `None`, the accumulator it
started from was `None` and every record it saw has `last_date = None`. -/
theorem foldl_last_none :
    ∀ (l : List WellRecord) (acc : Option Int),
      l.foldl
        (fun acc wr =>
          match acc with
          | none => wr.last_date
          | some f =>
            match wr.last_date with
            | some x => if x > f then some x else some f
            | none => some f) acc = none →
      acc = none ∧ ∀ r ∈ l, r.last_date = none := by
  intro l
  induction l with
  | nil =>
    intro acc h
    exact ⟨h, by simp⟩
  | cons r l ih =>
    intro acc h
    rw [List.foldl_cons] at h
    obtain ⟨hstep, hall⟩ := ih _ h
    have hacc : acc = none := by
      cases acc with
      | none => rfl
      | some f =>
        exfalso
        rcases hr : r.last_date with _ | x
        · simp [hr] at hstep
        · rw [hr] at hstep
          simp only at hstep
          split at hstep <;> exact Option.noConfusion hstep
    subst hacc
    have hr : r.last_date = none := by simpa using hstep
    refine ⟨rfl, ?_⟩
    intro s hs
    rcases List.mem_cons.mp hs with h1 | h1
    · rw [h1]; exact hr
    · exact hall s h1

/-- `find_first_date` is `None` only when no record has a first date. -/
theorem find_first_none_all (g : WellGroup) (h : g.find_first_date = none) :
    ∀ r ∈ g.well_records, r.first_date = none :=
  (foldl_first_none g.well_records none h).2

/-- `find_last_date` is `None` only when no record has a last date. -/
theorem find_last_none_all (g : WellGroup) (h : g.find_last_date = none) :
    ∀ r ∈ g.well_records, r.last_date = none :=
  (foldl_last_none g.well_records none h).2

/-- When every record has `first_date = None`, each is either skipped or
raises, so a normal return leaves the running result untouched. -/
theorem gapsLoop_all_first_none (cat : String) (ovf ovl : Option Int) :
    ∀ (records : List WellRecord) (init : Bool) (gaps res : DateRangeGroup)
      (rs : List WellRecord),
      (∀ r ∈ records, r.first_date = none) →
      WellGroup.gapsLoop cat ovf ovl records init gaps = .ok (res, rs) →
      res = gaps := by
  intro records
  induction records with
  | nil =>
    intro init gaps res rs _ h
    simp only [WellGroup.gapsLoop, Except.ok.injEq, Prod.mk.injEq] at h
    exact h.1.symm
  | cons r rest ih =>
    intro init gaps res rs hnone h
    have hrf : r.first_date = none := hnone r (List.mem_cons_self r rest)
    rcases hrl : r.last_date with _ | l <;>
      simp only [WellGroup.gapsLoop, hrf, hrl] at h
    · obtain ⟨rs', hrec, -⟩ := consState_eq_ok h
      exact ih init gaps res rs' (fun s hs => hnone s (List.mem_cons_of_mem r hs)) hrec
    · exact Except.noConfusion h

/-- When every record has `last_date = None`, each is either skipped or
raises, so a normal return leaves the running result untouched. -/
theorem gapsLoop_all_last_none (cat : String) (ovf ovl : Option Int) :
    ∀ (records : List WellRecord) (init : Bool) (gaps res : DateRangeGroup)
      (rs : List WellRecord),
      (∀ r ∈ records, r.last_date = none) →
      WellGroup.gapsLoop cat ovf ovl records init gaps = .ok (res, rs) →
      res = gaps := by
  intro records
  induction records with
  | nil =>
    intro init gaps res rs _ h
    simp only [WellGroup.gapsLoop, Except.ok.injEq, Prod.mk.injEq] at h
    exact h.1.symm
  | cons r rest ih =>
    intro init gaps res rs hnone h
    have hrl : r.last_date = none := hnone r (List.mem_cons_self r rest)
    rcases hrf : r.first_date with _ | f <;>
      simp only [WellGroup.gapsLoop, hrf, hrl] at h
    · obtain ⟨rs', hrec, -⟩ := consState_eq_ok h
      exact ih init gaps res rs' (fun s hs => hnone s (List.mem_cons_of_mem r hs)) hrec
    · exact Except.noConfusion h

/-- Once the running result has been initialised and is empty, the loop
returns it unchanged: the next date-bounded record triggers the `break`,
and records without dates are skipped. -/
theorem gapsLoop_init_empty (cat : String) (ovf ovl : Option Int) :
    ∀ (records : List WellRecord) (res : DateRangeGroup) (rs : List WellRecord),
      WellGroup.gapsLoop cat ovf ovl records true ⟨[]⟩ = .ok (res, rs) →
      res = ⟨[]⟩ := by
  intro records
  induction records with
  | nil =>
    intro res rs h
    simp only [WellGroup.gapsLoop, Except.ok.injEq, Prod.mk.injEq] at h
    exact h.1.symm
  | cons r rest ih =>
    intro res rs h
    rcases hrf : r.first_date with _ | f <;> rcases hrl : r.last_date with _ | l <;>
      simp only [WellGroup.gapsLoop, hrf, hrl] at h
    · obtain ⟨rs', hrec, -⟩ := consState_eq_ok h
      exact ih res rs' hrec
    · exact Except.noConfusion h
    · exact Except.noConfusion h
    · split at h
      case isTrue hcontra => simp at hcontra
      case isFalse =>
        split at h
        case isTrue =>
          simp only [Except.ok.injEq, Prod.mk.injEq] at h
          exact h.1.symm
        case isFalse hcontra => simp at hcontra

/-- A date-bounded record whose span equals the overall span and whose gap
set for the category is registered empty forces the loop's normal result
to be empty: its normalization padding is empty, so it either seeds the
running result with the empty group or empties it by intersection, after
which `gapsLoop_init_empty` applies; a `break` before reaching it already
returns an empty result. -/
theorem gapsLoop_member_empty (cat : String) (f0 l0 : Int) (wr : WellRecord)
    (hreg : lookupAssoc wr.date_ranges cat = some ⟨[]⟩)
    (hf : wr.first_date = some f0) (hl : wr.last_date = some l0) :
    ∀ (records : List WellRecord) (init : Bool) (gaps res : DateRangeGroup)
      (rs : List WellRecord), wr ∈ records →
      WellGroup.gapsLoop cat (some f0) (some l0) records init gaps = .ok (res, rs) →
      res = ⟨[]⟩ := by
  intro records
  induction records with
  | nil =>
    intro init gaps res rs hmem
    exact absurd hmem (List.not_mem_nil wr)
  | cons r rest ih =>
    intro init gaps res rs hmem h
    rcases List.mem_cons.mp hmem with heq | hmem'
    · subst heq
      have hdr : wr.date_ranges_by_category cat = ⟨[]⟩ := by
        simp [WellRecord.date_ranges_by_category, hreg]
      cases init with
      | false =>
        simp [WellGroup.gapsLoop, hf, hl, hdr, lt_irrefl] at h
        obtain ⟨rs', hrec, -⟩ := consState_eq_ok h
        exact gapsLoop_init_empty cat (some f0) (some l0) rest res rs' hrec
      | true =>
        simp [WellGroup.gapsLoop, hf, hl, hdr, lt_irrefl, find_all_overlaps_empty_right] at h
        split at h
        case isTrue hlen =>
          simp only [Except.ok.injEq, Prod.mk.injEq] at h
          rw [← h.1]
          exact group_eq_empty_of_length (by simp [hlen])
        case isFalse =>
          obtain ⟨rs', hrec, -⟩ := consState_eq_ok h
          exact gapsLoop_init_empty cat (some f0) (some l0) rest res rs' hrec
    · rcases hrf : r.first_date with _ | f <;> rcases hrl : r.last_date with _ | l <;>
        simp only [WellGroup.gapsLoop, hrf, hrl] at h
      · obtain ⟨rs', hrec, -⟩ := consState_eq_ok h
        exact ih init gaps res rs' hmem' hrec
      · exact Except.noConfusion h
      · exact Except.noConfusion h
      · cases init with
        | false =>
          rw [if_pos (by simp)] at h
          obtain ⟨rs', hrec, -⟩ := consState_eq_ok h
          exact ih true _ res rs' hmem' hrec
        | true =>
          rw [if_neg (by simp)] at h
          split at h
          case isTrue hlen =>
            simp only [Except.ok.injEq, Prod.mk.injEq] at h
            rw [← h.1]
            exact group_eq_empty_of_length hlen
          case isFalse =>
            obtain ⟨rs', hrec, -⟩ := consState_eq_ok h
            exact ih true _ res rs' hmem' hrec

/-- C5 (amended): if some member has the category registered with an empty
gap set and that member's span covers the group's overall span
(`first_date` equals the group's earliest date and `last_date` its latest,
so normalization adds no synthetic padding to it), then a successful
`find_gaps` for that category returns an empty result. Without the span
condition the claim is false (see the padding counterexample). -/
theorem find_gaps_empty_spanning_member (g : WellGroup) (cat : String)
    (wr : WellRecord) (hmem : wr ∈ g.well_records)
    (hreg : lookupAssoc wr.date_ranges cat = some ⟨[]⟩)
    (hf : wr.first_date = g.find_first_date)
    (hl : wr.last_date = g.find_last_date)
    (res : DateRangeGroup) (g' : WellGroup)
    (hok : g.find_gaps cat = .ok (res, g')) :
    res = ⟨[]⟩ := by
  simp only [WellGroup.find_gaps] at hok
  split at hok
  case isFalse => exact Except.noConfusion hok
  case isTrue =>
    rcases hres : WellGroup.gapsLoop cat g.find_first_date g.find_last_date
        g.well_records false ⟨[]⟩ with p | p
    · obtain ⟨e, rs⟩ := p
      rw [hres] at hok
      exact Except.noConfusion hok
    · obtain ⟨res0, rs⟩ := p
      rw [hres] at hok
      simp only [Except.ok.injEq, Prod.mk.injEq] at hok
      rw [← hok.1]
      rcases hof : g.find_first_date with _ | f0
      · rw [hof] at hres
        exact gapsLoop_all_first_none cat none g.find_last_date g.well_records false
          ⟨[]⟩ res0 rs (find_first_none_all g hof) hres
      · rcases hol : g.find_last_date with _ | l0
        · rw [hol] at hres
          exact gapsLoop_all_last_none cat g.find_first_date none g.well_records false
            ⟨[]⟩ res0 rs (find_last_none_all g hol) hres
        · rw [hof] at hf
          rw [hol] at hl
          rw [hof, hol] at hres
          exact gapsLoop_member_empty cat f0 l0 wr hreg hf hl g.well_records false
            ⟨[]⟩ res0 rs hmem hres

/-- A record spanning the whole (one-record) group, with the category
registered explicitly empty. -/
def spanningEmptyWell : WellRecord :=
  { api_num := "W", well_name := none, first_date := some 1, last_date := some 2
    record_access_date := none, date_ranges := [("c", ⟨[]⟩)] }

/-- One-record group for the C5 witness. -/
def spanningEmptyGroup : WellGroup :=
  ⟨[spanningEmptyWell], []⟩

/-- Witness for the amended C5 at a concrete group. -/
theorem find_gaps_empty_spanning_member_witness :
    (⟨[]⟩ : DateRangeGroup) = ⟨[]⟩ :=
  find_gaps_empty_spanning_member spanningEmptyGroup "c" spanningEmptyWell
    (by decide) (by decide) (by decide) (by decide)
    ⟨[]⟩ ⟨[spanningEmptyWell], [("c", ⟨[]⟩)]⟩ (by decide)

/-- A calendar date as Python's `datetime.date` stores it: year, month and
day fields. `dateOrd` maps it to the ordinal representation used by the
interval algebra above. -/
structure PyDate where
  year : Nat
  month : Nat
  day : Nat
  deriving DecidableEq, Repr

/-- The validation `datetime.date(year, month, day)` performs: year within
`MINYEAR..MAXYEAR` (1..9999), month 1..12, day 1..days-in-month. -/
def PyDate.ValidB (p : PyDate) : Bool :=
  1 ≤ p.year ∧ p.year ≤ 9999 ∧ 1 ≤ p.month ∧ p.month ≤ 12
    ∧ 1 ≤ p.day ∧ p.day ≤ daysInMonth p.year p.month

/-- The decimal digit character for `n % 10`-style values. -/
def digitChar (n : Nat) : Char :=
  Char.ofNat (48 + n)

/-- Numeric value of a decimal digit character. -/
def charVal (c : Char) : Nat :=
  c.toNat - 48

/-- Two-digit zero-padded decimal rendering (`%m` / `%d`). -/
def pad2 (n : Nat) : List Char :=
  [digitChar (n / 10 % 10), digitChar (n % 10)]

/-- Four-digit zero-padded decimal rendering (`%Y` as documented for
`datetime.strftime`, which zero-pads the year to four digits). -/
def pad4 (n : Nat) : List Char :=
  [digitChar (n / 1000 % 10), digitChar (n / 100 % 10),
    digitChar (n / 10 % 10), digitChar (n % 10)]

/-- `f"{d:%Y-%m-%d}"` for a calendar date. -/
def fmtDateChars (p : PyDate) : List Char :=
  pad4 p.year ++ '-' :: (pad2 p.month ++ '-' :: pad2 p.day)

/-- `DateRange.__str__`:
`f"{self.start_date:%Y-%m-%d}::{self.end_date:%Y-%m-%d}"`, stated with the
two endpoints given in calendar form. -/
def dateRangeStr (p1 p2 : PyDate) : String :=
  String.mk (fmtDateChars p1 ++ ':' :: ':' :: fmtDateChars p2)

/-- Maximal leading run of decimal digit characters (the greedy digit
matching of the `strptime` regex groups). -/
def digitSpan : List Char → List Char × List Char
  | [] => ([], [])
  | c :: rest =>
    if c.isDigit then
      let (run, rest') := digitSpan rest
      (c :: run, rest')
    else ([], c :: rest)

/-- Value of a digit-character run, most significant first. -/
def digitsVal (l : List Char) : Nat :=
  l.foldl (fun a c => 10 * a + charVal c) 0

/-- `datetime.strptime(s, "%Y-%m-%d").date()` as CPython implements it:
the format compiles to the anchored regex
`(\d\d\d\d)-(1[0-2]|0[1-9]|[1-9])-(3[01]|[12]\d|0[1-9]|[1-9])` which must
match the whole string (`unconverted data remains` otherwise), after which
`date(year, month, day)` validates the day against the month length. The
month group accepts one digit `1..9` or two digits `01..12`; the day group
one digit `1..9` or two digits `01..31`; since each group is followed by a
non-digit (`-` or end of string), the regex backtracking is equivalent to
taking the maximal digit run and testing it against those shapes. It is
decomposed here into the year prefix `(\d\d\d\d)-`, the month group with
its trailing `-`, and the day group at the end of the string; `date()`'s
own range validation closes `parseDateChars`. -/
def parseYearDash : List Char → Option (Nat × List Char)
  | c1 :: c2 :: c3 :: c4 :: '-' :: rest =>
    if c1.isDigit ∧ c2.isDigit ∧ c3.isDigit ∧ c4.isDigit then
      some (digitsVal [c1, c2, c3, c4], rest)
    else none
  | _ => none

/-- The month group `(1[0-2]|0[1-9]|[1-9])` followed by the literal `-`:
a maximal digit run of one digit `1..9` or two digits `01..12`. -/
def parseMonthDash (s : List Char) : Option (Nat × List Char) :=
  match digitSpan s with
  | (mrun, '-' :: rest) =>
    if (mrun.length = 1 ∧ 1 ≤ digitsVal mrun)
        ∨ (mrun.length = 2 ∧ 1 ≤ digitsVal mrun ∧ digitsVal mrun ≤ 12) then
      some (digitsVal mrun, rest)
    else none
  | _ => none

/-- The day group `(3[01]|[12]\d|0[1-9]|[1-9])` followed by the end of the
string (`unconverted data remains` otherwise): a maximal digit run of one
digit `1..9` or two digits `01..31`. -/
def parseDayEnd (s : List Char) : Option Nat :=
  match digitSpan s with
  | (drun, []) =>
    if (drun.length = 1 ∧ 1 ≤ digitsVal drun)
        ∨ (drun.length = 2 ∧ 1 ≤ digitsVal drun ∧ digitsVal drun ≤ 31) then
      some (digitsVal drun)
    else none
  | _ => none

def parseDateChars (s : List Char) : Option PyDate := do
  let (y, rest) ← parseYearDash s
  let (m, rest2) ← parseMonthDash rest
  let d ← parseDayEnd rest2
  if 1 ≤ y ∧ d ≤ daysInMonth y m then some ⟨y, m, d⟩ else none

/-- Prepend a character to the first piece of a split result. -/
def consHead (c : Char) : List (List Char) → List (List Char)
  | [] => [[c]]
  | h :: t => (c :: h) :: t

/-- Python `s.split("::")`: split at each leftmost non-overlapping
occurrence of the two-character separator, keeping empty pieces. -/
def splitCC : List Char → List (List Char)
  | [] => [[]]
  | [c] => [[c]]
  | c1 :: c2 :: rest =>
    if c1 = ':' ∧ c2 = ':' then [] :: splitCC rest
    else consHead c1 (splitCC (c2 :: rest))

/-- `_default_daterange_parse_func(date_str)`:
`s1, s2 = date_str.split("::")` (a `ValueError` unless exactly two
pieces), `strptime` on each piece, then `DateRange(date1, date2)`; every
`ValueError` raised inside — unpacking, date parsing, or the constructor's
`start > end` check — is caught and re-raised as the format error. -/
def _default_daterange_parse_func (s : String) : Except String DateRange :=
  match splitCC s.toList with
  | [a, b] =>
    match parseDateChars a, parseDateChars b with
    | some p1, some p2 =>
      if dateOrd p1.year p1.month p1.day > dateOrd p2.year p2.month p2.day then
        .error "Date range must be in the format YYYY-MM-DD::YYYY-MM-DD"
      else .ok ⟨dateOrd p1.year p1.month p1.day, dateOrd p2.year p2.month p2.day⟩
    | _, _ => .error "Date range must be in the format YYYY-MM-DD::YYYY-MM-DD"
  | _ => .error "Date range must be in the format YYYY-MM-DD::YYYY-MM-DD"

/-- C9 counterexample: `"2014-1-1::2015-1-9"` does not match the
serialization format (its months and days are not zero-padded — the
canonical form of the same range is `"2014-01-01::2015-01-09"`), yet the
parser accepts it instead of failing: `strptime`'s `%m` and `%d` also
match single digits. -/
theorem parse_accepts_unpadded_string :
    _default_daterange_parse_func "2014-1-1::2015-1-9"
        = .ok ⟨dateOrd 2014 1 1, dateOrd 2015 1 9⟩
      ∧ dateRangeStr ⟨2014, 1, 1⟩ ⟨2015, 1, 9⟩ = "2014-01-01::2015-01-09"
      ∧ ("2014-1-1::2015-1-9" : String) ≠ "2014-01-01::2015-01-09" := by
  decide

theorem digitChar_isDigit : ∀ n, n < 10 → (digitChar n).isDigit = true := by decide

theorem charVal_digitChar : ∀ n, n < 10 → charVal (digitChar n) = n := by decide

theorem digitChar_ne_colon : ∀ n, n < 10 → digitChar n ≠ ':' := by decide

theorem mod10_lt (x : Nat) : x % 10 < 10 :=
  Nat.mod_lt _ (by norm_num)

theorem daysInMonth_le_31 (y m : Nat) : daysInMonth y m ≤ 31 := by
  unfold daysInMonth
  split
  · split <;> omega
  · split <;> omega

theorem digitsVal_two (n : Nat) (h : n < 100) :
    digitsVal [digitChar (n / 10 % 10), digitChar (n % 10)] = n := by
  simp only [digitsVal, List.foldl_cons, List.foldl_nil,
    charVal_digitChar _ (mod10_lt _)]
  omega

theorem digitsVal_four (n : Nat) (h : n < 10000) :
    digitsVal [digitChar (n / 1000 % 10), digitChar (n / 100 % 10),
      digitChar (n / 10 % 10), digitChar (n % 10)] = n := by
  simp only [digitsVal, List.foldl_cons, List.foldl_nil,
    charVal_digitChar _ (mod10_lt _)]
  omega

/-- No character of a formatted date is a colon, so `split("::")` keeps
each formatted date in one piece. -/
theorem fmt_no_colon (p : PyDate) : ∀ c ∈ fmtDateChars p, c ≠ ':' := by
  intro c hc
  simp only [fmtDateChars, pad4, pad2, List.append_assoc, List.cons_append,
    List.nil_append, List.mem_cons, List.not_mem_nil, or_false] at hc
  rcases hc with rfl | rfl | rfl | rfl | rfl | rfl | rfl | rfl | rfl | rfl
  · exact digitChar_ne_colon _ (mod10_lt _)
  · exact digitChar_ne_colon _ (mod10_lt _)
  · exact digitChar_ne_colon _ (mod10_lt _)
  · exact digitChar_ne_colon _ (mod10_lt _)
  · decide
  · exact digitChar_ne_colon _ (mod10_lt _)
  · exact digitChar_ne_colon _ (mod10_lt _)
  · decide
  · exact digitChar_ne_colon _ (mod10_lt _)
  · exact digitChar_ne_colon _ (mod10_lt _)

/-- A piece without colons is not split further. -/
theorem splitCC_no_colon : ∀ (B : List Char), (∀ c ∈ B, c ≠ ':') → splitCC B = [B] := by
  intro B
  induction B with
  | nil => intro; rfl
  | cons c1 B' ih =>
    intro h
    cases B' with
    | nil => rfl
    | cons c2 rest =>
      have hc1 : c1 ≠ ':' := h c1 (by simp)
      simp only [splitCC]
      rw [if_neg (fun hh => hc1 hh.1)]
      rw [ih (fun c hc => h c (List.mem_cons_of_mem _ hc))]
      rfl

/-- Splitting at the first separator after a colon-free first piece. -/
theorem splitCC_append (A B : List Char) (hA : ∀ c ∈ A, c ≠ ':') :
    splitCC (A ++ ':' :: ':' :: B) = A :: splitCC B := by
  induction A with
  | nil => simp [splitCC]
  | cons a A' ih =>
    have ha : a ≠ ':' := hA a (by simp)
    have hA' : ∀ c ∈ A', c ≠ ':' := fun c hc => hA c (List.mem_cons_of_mem _ hc)
    cases hE : A' ++ ':' :: ':' :: B with
    | nil => exact absurd hE (by simp)
    | cons x xs =>
      simp only [List.cons_append, hE, splitCC]
      rw [if_neg (fun hh => ha hh.1)]
      rw [← hE, ih hA']
      rfl

theorem digitSpan_two_dash (a b : Nat) (rest : List Char) :
    digitSpan (digitChar (a % 10) :: digitChar (b % 10) :: '-' :: rest)
      = ([digitChar (a % 10), digitChar (b % 10)], '-' :: rest) := by
  simp [digitSpan, digitChar_isDigit _ (mod10_lt _),
    show ('-' : Char).isDigit = false from by decide]

theorem digitSpan_two_nil (a b : Nat) :
    digitSpan [digitChar (a % 10), digitChar (b % 10)]
      = ([digitChar (a % 10), digitChar (b % 10)], []) := by
  simp [digitSpan, digitChar_isDigit _ (mod10_lt _)]

theorem parseYearDash_fmt (y : Nat) (hy : y < 10000) (rest : List Char) :
    parseYearDash (digitChar (y / 1000 % 10) :: digitChar (y / 100 % 10) ::
        digitChar (y / 10 % 10) :: digitChar (y % 10) :: '-' :: rest)
      = some (y, rest) := by
  simp only [parseYearDash]
  rw [if_pos ⟨digitChar_isDigit _ (mod10_lt _), digitChar_isDigit _ (mod10_lt _),
    digitChar_isDigit _ (mod10_lt _), digitChar_isDigit _ (mod10_lt _)⟩]
  rw [digitsVal_four y hy]

theorem parseMonthDash_fmt (n : Nat) (h1 : 1 ≤ n) (h2 : n ≤ 12) (rest : List Char) :
    parseMonthDash (digitChar (n / 10 % 10) :: digitChar (n % 10) :: '-' :: rest)
      = some (n, rest) := by
  simp only [parseMonthDash, digitSpan_two_dash (n / 10) n rest]
  rw [digitsVal_two n (by omega)]
  rw [if_pos (Or.inr ⟨by simp, h1, h2⟩)]

theorem parseDayEnd_fmt (n : Nat) (h1 : 1 ≤ n) (h2 : n ≤ 31) :
    parseDayEnd [digitChar (n / 10 % 10), digitChar (n % 10)] = some n := by
  simp only [parseDayEnd, digitSpan_two_nil (n / 10) n]
  rw [digitsVal_two n (by omega)]
  rw [if_pos (Or.inr ⟨by simp, h1, h2⟩)]

/-- Parsing inverts formatting on any date `datetime.date` accepts: the
zero-padded pieces match the `strptime` patterns and revalidate. -/
theorem parseDateChars_fmt (p : PyDate) (h : p.ValidB = true) :
    parseDateChars (fmtDateChars p) = some p := by
  obtain ⟨y, m, d⟩ := p
  have h' : 1 ≤ y ∧ y ≤ 9999 ∧ 1 ≤ m ∧ m ≤ 12 ∧ 1 ≤ d ∧ d ≤ daysInMonth y m := by
    simpa [PyDate.ValidB] using h
  obtain ⟨hy1, hy2, hm1, hm2, hd1, hd2⟩ := h'
  have hfmt : fmtDateChars ⟨y, m, d⟩
      = digitChar (y / 1000 % 10) :: digitChar (y / 100 % 10) :: digitChar (y / 10 % 10) ::
        digitChar (y % 10) :: '-' ::
        (digitChar (m / 10 % 10) :: digitChar (m % 10) :: '-' ::
          (digitChar (d / 10 % 10) :: digitChar (d % 10) :: [])) := rfl
  rw [hfmt]
  simp [parseDateChars, parseYearDash_fmt y (by omega),
    parseMonthDash_fmt m hm1 hm2,
    parseDayEnd_fmt d hd1 (le_trans hd2 (daysInMonth_le_31 y m)), hy1, hd2]

/-- C9 (amended): the serialize/parse round-trip holds — parsing the
string form of a valid range recovers exactly its start and end dates.
(The format-strictness half of the claim is what fails; see the unpadded
counterexample.) -/
theorem parse_serialized_roundtrip (p1 p2 : PyDate)
    (h1 : p1.ValidB = true) (h2 : p2.ValidB = true)
    (hle : dateOrd p1.year p1.month p1.day ≤ dateOrd p2.year p2.month p2.day) :
    _default_daterange_parse_func (dateRangeStr p1 p2)
      = .ok ⟨dateOrd p1.year p1.month p1.day, dateOrd p2.year p2.month p2.day⟩ := by
  have htl : (dateRangeStr p1 p2).toList
      = fmtDateChars p1 ++ ':' :: ':' :: fmtDateChars p2 := rfl
  simp only [_default_daterange_parse_func, htl,
    splitCC_append _ _ (fmt_no_colon p1), splitCC_no_colon _ (fmt_no_colon p2),
    parseDateChars_fmt p1 h1, parseDateChars_fmt p2 h2]
  rw [if_neg (not_lt.mpr hle)]

/-- Witness for the amended C9 at the concrete range
2014-01-01..2015-01-09. -/
theorem parse_serialized_roundtrip_witness :
    _default_daterange_parse_func (dateRangeStr ⟨2014, 1, 1⟩ ⟨2015, 1, 9⟩)
      = .ok ⟨dateOrd 2014 1 1, dateOrd 2015 1 9⟩ :=
  parse_serialized_roundtrip ⟨2014, 1, 1⟩ ⟨2015, 1, 9⟩ (by decide) (by decide) (by decide)
